import Mathlib

/-!
CppFreeMock runtime patcher (`src/posix/runtime_patch.h`).

A shallow embedding of `CppFreeMock::RuntimePatcher`, the x86-64 function
redirection engine, followed by theorems about it.

Modelling conventions.

* An address and a `std::size_t` are natural numbers; every unsigned
  operation of the source reduces its result modulo `2 ^ 64` (`toSizeT`).
* A `char` is held as its unsigned bit pattern, a `Fin 256`.
* Memory is a total map from addresses to bytes together with a log of the
  addresses stored to, in program order.  The log is ghost state: no
  operation reads it; it only makes "which bytes were written" observable.
* Stateful functions take the memory (and the caller's `binary_backup`
  vector, which the source receives by reference) and return the new ones.
* The object representation of a 64-bit value is little-endian, as on the
  one architecture the patcher's opcodes exist for.
* `SetJump` and the functions under it are first given as the effect of their
  stores on memory.  The namespace `Guarded` gives the same code on a
  `Machine`, where a store to an address that is not writable raises SIGSEGV
  and ends the process with the earlier stores done; `SetFunctionJump`, the
  entry point that changes page protection, runs on it.
-/

namespace CppFreeMock

namespace RuntimePatcher

/-- One `char` of memory, as its unsigned bit pattern. -/
abbrev Byte := Fin 256

/-- Byte-addressed memory with a log of the addresses stored to. -/
structure Memory where
  /-- Contents of every address. -/
  bytes : Nat → Byte
  /-- Addresses stored to so far, oldest first. -/
  written : List Nat

/-- The assignment `p[0] = v` for `p` pointing at address `a`. -/
def Memory.store (m : Memory) (a : Nat) (v : Byte) : Memory :=
  { bytes := fun x => if x = a then v else m.bytes x
    written := m.written ++ [a] }

/-- Conversion of an integer to `std::size_t`: reduction modulo `2 ^ 64`. -/
def toSizeT (x : Int) : Nat := (x % 2 ^ 64).toNat

/-- Bitwise complement `~x` of a `std::size_t`. -/
def notSizeT (x : Nat) : Nat := 2 ^ 64 - 1 - x % 2 ^ 64

/-- Conversion of an integer to `char`, kept as the bit pattern. -/
def toChar (x : Nat) : Byte := ⟨x % 256, Nat.mod_lt x (by decide)⟩

/-- The eight bytes of the object representation of a 64-bit value, lowest
address first (little-endian): what `reinterpret_cast<const char*>(&x)`
points at. -/
def objectBytes (x : Nat) : List Byte :=
  (List.range 8).map (fun i => toChar (x / 256 ^ i))

/-- The algorithm `std::copy(first, last, d_first)` for a source range held as a
list: one store per element, ascending addresses. -/
def copy : List Byte → Nat → Memory → Memory
  | [], _, m => m
  | b :: bs, d_first, m => copy bs (d_first + 1) (m.store d_first b)

/-- The constructor `std::vector<char>(first, last)` over memory: the bytes at
`first, first + 1, ..., first + size - 1`. -/
def readRange (m : Memory) (first size : Nat) : List Byte :=
  (List.range size).map (fun i => m.bytes (first + i))

def INT32_MAX : Int := 2147483647

def INT32_MIN : Int := -2147483648

def PROT_READ : Nat := 1

def PROT_WRITE : Nat := 2

def PROT_EXEC : Nat := 4

/-- The operating environment the patcher talks to: the page size read once at
start-up, the `mprotect` system call (address, length, protection to return
code), the `errno` it leaves behind, and the addresses the process may store
to before the call. -/
structure Host where
  PageSize : Nat
  mprotect : Nat → Nat → Nat → Int
  errno : Int
  writable : Nat → Bool

/-- Source lines 25-27: `address & (~(page_size - 1))`. -/
def AlignAddress (address page_size : Nat) : Nat :=
  address &&& notSizeT (toSizeT ((page_size : Int) - 1))

/-- Source lines 29-33. -/
def UnprotectMemory (h : Host) (address length : Nat) : Int :=
  let page := AlignAddress address h.PageSize
  h.mprotect page length (PROT_READ ||| PROT_WRITE ||| PROT_EXEC)

/-- Source lines 35-37. -/
def UnprotectMemoryForOnePage (h : Host) (address : Nat) : Int :=
  UnprotectMemory h address h.PageSize

/-- Source lines 39-41: the vector is assigned, its old value is dropped. -/
def BackupBinary (m : Memory) (function : Nat) (_binary_backup : List Byte)
    (size : Nat) : List Byte :=
  readRange m function size

/-- Source lines 43-45.  Both comparisons are between a `std::size_t` and a
signed operand, so the signed operand is converted to the unsigned 64-bit
type first (usual arithmetic conversions). -/
def IsDistanceOverflow (distance : Nat) : Bool :=
  decide (distance > toSizeT INT32_MAX) && decide (distance < toSizeT INT32_MIN)

/-- Source lines 47-52: two wrapping subtractions. -/
def CalculateDistance (address destination : Nat) : Nat :=
  toSizeT ((toSizeT ((destination : Int) - (address : Int)) : Int) - 5)

/-- Source lines 54-59. -/
def PatchFunction (m : Memory) (function distance : Nat) : Memory :=
  let distance_bytes := objectBytes distance
  let m := m.store function (toChar 0xE9)
  copy (distance_bytes.take 4) (function + 1) m

/-- Source lines 61-76. -/
def PatchFunction64bitAddress (m : Memory) (function destination : Nat) : Memory :=
  let distance_bytes := objectBytes destination
  let m := m.store function (toChar 0x68)
  let m := copy (distance_bytes.take 4) (function + 1) m
  let m := m.store (function + 5) (toChar 0xC7)
  let m := m.store (function + 6) (toChar 0x44)
  let m := m.store (function + 7) (toChar 0x24)
  let m := m.store (function + 8) (toChar 0x04)
  let m := copy ((distance_bytes.drop 4).take 4) (function + 9) m
  m.store (function + 13) (toChar 0xC3)

/-- What `SetJump` leaves behind: memory, the caller's vector, the return value. -/
structure JumpResult where
  mem : Memory
  binary_backup : List Byte
  ret : Int

/-- Source lines 78-89. -/
def SetJump (m : Memory) (address destination : Nat) (binary_backup : List Byte) :
    JumpResult :=
  let function := address
  let distance := CalculateDistance address destination
  if IsDistanceOverflow distance then
    let binary_backup := BackupBinary m function binary_backup 14
    let m := PatchFunction64bitAddress m function destination
    { mem := m, binary_backup := binary_backup, ret := 0 }
  else
    let binary_backup := BackupBinary m function binary_backup 5
    let m := PatchFunction m function distance
    { mem := m, binary_backup := binary_backup, ret := 0 }

/-- Source lines 91-93. -/
def RevertPatch (m : Memory) (address : Nat) (binary_backup : List Byte) : Memory :=
  copy binary_backup address m

/-- A process under page protection: its memory, the addresses it may store
to, and whether a store has raised SIGSEGV.  Once one has, the process is dead
and nothing after it takes effect. -/
structure Machine where
  mem : Memory
  writable : Nat → Bool
  faulted : Bool

/-- The assignment `p[0] = v` under page protection: performed when the address
is writable, SIGSEGV otherwise. -/
def Machine.store (s : Machine) (a : Nat) (v : Byte) : Machine :=
  if s.faulted then s
  else if s.writable a then { s with mem := s.mem.store a v }
  else { s with faulted := true }

namespace Guarded

/-- The algorithm `std::copy` on a machine: one guarded store per element. -/
def copy : List Byte → Nat → Machine → Machine
  | [], _, s => s
  | b :: bs, d_first, s => copy bs (d_first + 1) (s.store d_first b)

/-- Source lines 54-59, on a machine. -/
def PatchFunction (s : Machine) (function distance : Nat) : Machine :=
  let distance_bytes := objectBytes distance
  let s := s.store function (toChar 0xE9)
  copy (distance_bytes.take 4) (function + 1) s

/-- Source lines 61-76, on a machine. -/
def PatchFunction64bitAddress (s : Machine) (function destination : Nat) : Machine :=
  let distance_bytes := objectBytes destination
  let s := s.store function (toChar 0x68)
  let s := copy (distance_bytes.take 4) (function + 1) s
  let s := s.store (function + 5) (toChar 0xC7)
  let s := s.store (function + 6) (toChar 0x44)
  let s := s.store (function + 7) (toChar 0x24)
  let s := s.store (function + 8) (toChar 0x04)
  let s := copy ((distance_bytes.drop 4).take 4) (function + 9) s
  s.store (function + 13) (toChar 0xC3)

/-- What `SetJump` leaves behind on a machine: the machine, the caller's vector,
and the return value, which is only delivered when the machine has not
faulted. -/
structure JumpResult where
  state : Machine
  binary_backup : List Byte
  ret : Int

/-- Source lines 78-89, on a machine.  The backup is a read and is taken before
the first store. -/
def SetJump (s : Machine) (address destination : Nat) (binary_backup : List Byte) :
    JumpResult :=
  let function := address
  let distance := CalculateDistance address destination
  if IsDistanceOverflow distance then
    let binary_backup := BackupBinary s.mem function binary_backup 14
    let s := PatchFunction64bitAddress s function destination
    { state := s, binary_backup := binary_backup, ret := 0 }
  else
    let binary_backup := BackupBinary s.mem function binary_backup 5
    let s := PatchFunction s function distance
    { state := s, binary_backup := binary_backup, ret := 0 }

end Guarded

/-- The writable addresses after a successful `mprotect(addr, len, prot)` with
`PROT_WRITE` in `prot` and `addr` page-aligned: the pages holding a byte of
`[addr, addr + len)` have become writable, every other address is as before. -/
def afterMprotect (writable : Nat → Bool) (page_size addr len : Nat) : Nat → Bool :=
  fun a =>
    (decide (addr ≤ a) && decide (a < addr + (len + page_size - 1) / page_size * page_size))
      || writable a

/-- How a call of `SetFunctionJump` ends: the process is terminated by
`std::abort()` (with the state it had at that moment and the text sent to
`std::cerr`), or it is killed by SIGSEGV at a store to an address that is not
writable (with the memory and the caller's vector as they were at that
moment), or the call returns. -/
inductive Outcome where
  | aborted (mem : Memory) (binary_backup : List Byte) (cerr : String)
  | faulted (mem : Memory) (binary_backup : List Byte)
  | returned (r : JumpResult)

/-- Source lines 95-104.  `address` and `destination` are the `std::size_t`
values the two arguments are reinterpreted as.  After `mprotect` has returned
0 the page it was asked for is writable, and `SetJump` runs under the
resulting protection. -/
def SetFunctionJump (h : Host) (m : Memory) (address destination : Nat)
    (binary_backup : List Byte) : Outcome :=
  let function := address
  if 0 ≠ UnprotectMemoryForOnePage h function then
    let err := h.errno
    Outcome.aborted m binary_backup ("Unprotect memory meet errno: " ++ toString err ++ "\n")
  else
    let writable :=
      afterMprotect h.writable h.PageSize (AlignAddress function h.PageSize) h.PageSize
    let r := Guarded.SetJump { mem := m, writable := writable, faulted := false }
      function destination binary_backup
    if r.state.faulted then Outcome.faulted r.state.mem r.binary_backup
    else Outcome.returned { mem := r.state.mem, binary_backup := r.binary_backup, ret := r.ret }

/-- Source lines 106-109. -/
def RestoreJump (m : Memory) (address : Nat) (binary_backup : List Byte) : Memory :=
  RevertPatch m address binary_backup

/-! ## Vocabulary of the properties

The definitions below are not part of the program: they are the notions the
properties are phrased in (how the processor decodes the patched bytes, how a
64-bit pattern is read as a signed number) and the concrete states the
properties are exercised on. -/

/-- A 64-bit pattern read as a two's-complement signed integer. -/
def asSigned64 (x : Nat) : Int :=
  if x % 2 ^ 64 < 2 ^ 63 then ((x % 2 ^ 64 : Nat) : Int) else ((x % 2 ^ 64 : Nat) : Int) - 2 ^ 64

/-- The displacement `D - F - 5` of a destination from a target, computed in
64-bit arithmetic and read as a signed number. -/
def signedDisplacement (F D : Nat) : Int :=
  asSigned64 (((D : Int) - (F : Int) - 5) % 2 ^ 64).toNat

/-- The 32-bit value stored little-endian in the four bytes at `a .. a + 3`. -/
def le32 (bytes : Nat → Byte) (a : Nat) : Nat :=
  (bytes a).val + 256 * (bytes (a + 1)).val + 65536 * (bytes (a + 2)).val
    + 16777216 * (bytes (a + 3)).val

/-- Sign extension of a 32-bit immediate, as the processor applies it to the
operand of a near jump. -/
def signExtend32 (x : Nat) : Int :=
  if x < 2 ^ 31 then (x : Int) else (x : Int) - 2 ^ 32

/-- The four bytes of a 32-bit value, least significant first. -/
def littleEndian32 (x : Nat) : List Nat :=
  [x % 256, x / 256 % 256, x / 65536 % 256, x / 16777216 % 256]

/-- The addresses `first, first + 1, ..., first + size - 1`. -/
def addressRange (first size : Nat) : List Nat :=
  (List.range size).map (fun i => first + i)

/-- A memory holding a typical function prologue, `55 48 89 E5 90`, at address
`0x1000`, and zero elsewhere; nothing stored to yet. -/
def prologueMemory : Memory :=
  { bytes := fun a =>
      if a = 4096 then 0x55 else if a = 4097 then 0x48 else if a = 4098 then 0x89
      else if a = 4099 then 0xE5 else if a = 4100 then 0x90 else 0
    written := [] }

/-- A memory that already holds the short patch from `0x1000` to `0x2000`,
`E9 FB 0F 00 00`, at address `0x1000`, and zero elsewhere. -/
def patchedMemory : Memory :=
  { bytes := fun a =>
      if a = 4096 then 0xE9 else if a = 4097 then 0xFB else if a = 4098 then 0x0F else 0
    written := [] }

/-- A host with 4 KiB pages whose `mprotect` always fails with `EACCES`; no
address is writable. -/
def refusingHost : Host :=
  { PageSize := 4096, mprotect := fun _ _ _ => -1, errno := 13, writable := fun _ => false }

/-- A host with 4 KiB pages whose `mprotect` grants exactly one request, read,
write and execute on the single page `[0x1000, 0x2000)`, and refuses every
other.  The page after it, `[0x2000, 0x3000)`, is writable already, as it is
once an earlier install has loosened it; no other address is. -/
def onePageHost : Host :=
  { PageSize := 4096
    mprotect := fun addr len prot => if addr = 4096 ∧ len = 4096 ∧ prot = 7 then 0 else -1
    errno := 13
    writable := fun a => decide (8192 ≤ a) && decide (a < 12288) }

/-! ## Lemmas on the memory primitives -/

theorem store_bytes (m : Memory) (a : Nat) (v : Byte) (x : Nat) :
    (m.store a v).bytes x = if x = a then v else m.bytes x := rfl

theorem store_written (m : Memory) (a : Nat) (v : Byte) :
    (m.store a v).written = m.written ++ [a] := rfl

theorem copy_bytes_outside (bs : List Byte) (d : Nat) (m : Memory) (a : Nat)
    (h : a < d ∨ d + bs.length ≤ a) : (copy bs d m).bytes a = m.bytes a := by
  induction bs generalizing d m with
  | nil => rfl
  | cons b bs ih =>
    simp only [copy, List.length_cons] at h ⊢
    rw [ih (d + 1) (m.store d b) (by omega), store_bytes, if_neg (by omega)]

theorem copy_bytes_inside (bs : List Byte) (d : Nat) (m : Memory) (i : Nat)
    (h : i < bs.length) : (copy bs d m).bytes (d + i) = bs.get ⟨i, h⟩ := by
  induction bs generalizing d m i with
  | nil => simp at h
  | cons b bs ih =>
    simp only [copy]
    cases i with
    | zero =>
      rw [copy_bytes_outside bs (d + 1) (m.store d b) (d + 0) (by omega)]
      simp [store_bytes]
    | succ j =>
      have hj : j < bs.length := by simpa using h
      have := ih (d + 1) (m.store d b) j hj
      rw [show d + (j + 1) = d + 1 + j by omega, this]
      simp

theorem copy_written (bs : List Byte) (d : Nat) (m : Memory) :
    (copy bs d m).written = m.written ++ (List.range bs.length).map (fun i => d + i) := by
  induction bs generalizing d m with
  | nil => simp [copy]
  | cons b bs ih =>
    simp only [copy, List.length_cons]
    rw [ih, store_written, List.range_succ_eq_map, List.append_assoc]
    simp [List.map_map, Function.comp_def, Nat.add_assoc, Nat.add_comm 1]

theorem readRange_length (m : Memory) (first size : Nat) :
    (readRange m first size).length = size := by
  simp [readRange]

theorem readRange_get (m : Memory) (first size i : Nat) (h : i < (readRange m first size).length) :
    (readRange m first size).get ⟨i, h⟩ = m.bytes (first + i) := by
  simp [readRange]

/-- Writing back a range read from `m` over any memory that agrees with `m`
outside that range gives the contents of `m`. -/
theorem copy_readRange_restores (m m1 : Memory) (F n : Nat)
    (hframe : ∀ a, a < F ∨ F + n ≤ a → m1.bytes a = m.bytes a) :
    (copy (readRange m F n) F m1).bytes = m.bytes := by
  funext a
  by_cases ha : a < F ∨ F + n ≤ a
  · rw [copy_bytes_outside _ _ _ _ (by rw [readRange_length]; exact ha)]
    exact hframe a ha
  · have h1 : a - F < (readRange m F n).length := by rw [readRange_length]; omega
    have := copy_bytes_inside (readRange m F n) F m1 (a - F) h1
    rw [show F + (a - F) = a by omega] at this
    rw [this, readRange_get, show F + (a - F) = a by omega]

/-! ## Lemmas on the encoders and on `SetJump` -/

theorem PatchFunction_bytes (m : Memory) (F d a : Nat) :
    (PatchFunction m F d).bytes a =
      if a = F + 4 then toChar (d / 256 ^ 3)
      else if a = F + 3 then toChar (d / 256 ^ 2)
      else if a = F + 2 then toChar (d / 256 ^ 1)
      else if a = F + 1 then toChar (d / 256 ^ 0)
      else if a = F then toChar 0xE9
      else m.bytes a := rfl

theorem PatchFunction_written (m : Memory) (F d : Nat) :
    (PatchFunction m F d).written = m.written ++ [F, F + 1, F + 2, F + 3, F + 4] := by
  simp [PatchFunction, objectBytes, copy, Memory.store, List.range_succ]

theorem PatchFunction64bitAddress_bytes (m : Memory) (F D a : Nat) :
    (PatchFunction64bitAddress m F D).bytes a =
      if a = F + 13 then toChar 0xC3
      else if a = F + 12 then toChar (D / 256 ^ 7)
      else if a = F + 11 then toChar (D / 256 ^ 6)
      else if a = F + 10 then toChar (D / 256 ^ 5)
      else if a = F + 9 then toChar (D / 256 ^ 4)
      else if a = F + 8 then toChar 0x04
      else if a = F + 7 then toChar 0x24
      else if a = F + 6 then toChar 0x44
      else if a = F + 5 then toChar 0xC7
      else if a = F + 4 then toChar (D / 256 ^ 3)
      else if a = F + 3 then toChar (D / 256 ^ 2)
      else if a = F + 2 then toChar (D / 256 ^ 1)
      else if a = F + 1 then toChar (D / 256 ^ 0)
      else if a = F then toChar 0x68
      else m.bytes a := rfl

theorem PatchFunction64bitAddress_written (m : Memory) (F D : Nat) :
    (PatchFunction64bitAddress m F D).written =
      m.written ++ [F, F + 1, F + 2, F + 3, F + 4, F + 5, F + 6, F + 7, F + 8, F + 9,
        F + 10, F + 11, F + 12, F + 13] := by
  simp [PatchFunction64bitAddress, objectBytes, copy, Memory.store, List.range_succ]

theorem PatchFunction_frame (m : Memory) (F d a : Nat) (h : a < F ∨ F + 5 ≤ a) :
    (PatchFunction m F d).bytes a = m.bytes a := by
  rw [PatchFunction_bytes]
  repeat rw [if_neg (by omega)]

theorem PatchFunction64bitAddress_frame (m : Memory) (F D a : Nat) (h : a < F ∨ F + 14 ≤ a) :
    (PatchFunction64bitAddress m F D).bytes a = m.bytes a := by
  rw [PatchFunction64bitAddress_bytes]
  repeat rw [if_neg (by omega)]

theorem IsDistanceOverflow_iff (d : Nat) :
    IsDistanceOverflow d = true ↔ 2147483647 < d ∧ d < 18446744071562067968 := by
  simp [IsDistanceOverflow, toSizeT, INT32_MAX, INT32_MIN]

theorem CalculateDistance_eq (F D : Nat) :
    CalculateDistance F D = (((D : Int) - (F : Int) - 5) % 2 ^ 64).toNat := by
  unfold CalculateDistance toSizeT
  omega

theorem SetJump_long (m : Memory) (F D : Nat) (backup : List Byte)
    (h : IsDistanceOverflow (CalculateDistance F D) = true) :
    SetJump m F D backup =
      { mem := PatchFunction64bitAddress m F D, binary_backup := readRange m F 14, ret := 0 } := by
  simp [SetJump, h, BackupBinary]

theorem SetJump_short (m : Memory) (F D : Nat) (backup : List Byte)
    (h : IsDistanceOverflow (CalculateDistance F D) = false) :
    SetJump m F D backup =
      { mem := PatchFunction m F (CalculateDistance F D), binary_backup := readRange m F 5,
        ret := 0 } := by
  simp [SetJump, h, BackupBinary]

/-! ## Round trip, redirection and encoding selection -/

/-- Whatever encoding is chosen, the backup is the pre-state range of the
length chosen and the new memory agrees with the old one outside that range. -/
theorem SetJump_cases (m : Memory) (F D : Nat) (backup : List Byte) :
    (IsDistanceOverflow (CalculateDistance F D) = false
        ∧ (SetJump m F D backup).mem = PatchFunction m F (CalculateDistance F D)
        ∧ (SetJump m F D backup).binary_backup = readRange m F 5)
    ∨ (IsDistanceOverflow (CalculateDistance F D) = true
        ∧ (SetJump m F D backup).mem = PatchFunction64bitAddress m F D
        ∧ (SetJump m F D backup).binary_backup = readRange m F 14) := by
  cases h : IsDistanceOverflow (CalculateDistance F D)
  · left; rw [SetJump_short m F D backup h]; exact ⟨rfl, rfl, rfl⟩
  · right; rw [SetJump_long m F D backup h]; exact ⟨rfl, rfl, rfl⟩

/-- Reverting right after installing restores the contents of memory. -/
theorem RevertPatch_SetJump_bytes (m : Memory) (F D : Nat) (backup : List Byte) :
    (RevertPatch (SetJump m F D backup).mem F (SetJump m F D backup).binary_backup).bytes
      = m.bytes := by
  rcases SetJump_cases m F D backup with ⟨_, hm, hb⟩ | ⟨_, hm, hb⟩
  · rw [hm, hb]
    exact copy_readRange_restores m _ F 5 (fun a ha => PatchFunction_frame m F _ a ha)
  · rw [hm, hb]
    exact copy_readRange_restores m _ F 14
      (fun a ha => PatchFunction64bitAddress_frame m F D a ha)

/-- C1 (round trip).  For every memory `m`, every target `F` and every
destination `D` (so in particular for `F + 14` inside the 64-bit address space):
installing the jump with `SetJump` and then running `RevertPatch` on the
resulting memory with the returned backup gives a memory whose contents equal
those of `m` at every address; in particular the bytes at `F + i`, `i` below
the backup's length, are the pre-install ones.  Both encodings are covered,
since `D` is arbitrary. -/
theorem SetJump_RevertPatch_round_trip (m : Memory) (F D : Nat) (backup : List Byte) :
    (RevertPatch (SetJump m F D backup).mem F (SetJump m F D backup).binary_backup).bytes
        = m.bytes
    ∧ ∀ i, i < (SetJump m F D backup).binary_backup.length →
        (RevertPatch (SetJump m F D backup).mem F (SetJump m F D backup).binary_backup).bytes
          (F + i) = m.bytes (F + i) := by
  have key := RevertPatch_SetJump_bytes m F D backup
  exact ⟨key, fun i _ => by rw [key]⟩

/-- Instance of C1: the round trip at the prologue memory, target `0x1000`, once
with a destination in short range (`0x2000`) and once with a far destination
(`0x123456789ABCDEF0`). -/
theorem SetJump_RevertPatch_round_trip_witness :
    (RevertPatch (SetJump prologueMemory 4096 8192 []).mem 4096
        (SetJump prologueMemory 4096 8192 []).binary_backup).bytes = prologueMemory.bytes
    ∧ (SetJump prologueMemory 4096 8192 []).binary_backup.length = 5
    ∧ (RevertPatch (SetJump prologueMemory 4096 0x123456789ABCDEF0 []).mem 4096
        (SetJump prologueMemory 4096 0x123456789ABCDEF0 []).binary_backup).bytes
        = prologueMemory.bytes
    ∧ (SetJump prologueMemory 4096 0x123456789ABCDEF0 []).binary_backup.length = 14 :=
  ⟨(SetJump_RevertPatch_round_trip prologueMemory 4096 8192 []).1,
   by decide,
   (SetJump_RevertPatch_round_trip prologueMemory 4096 0x123456789ABCDEF0 []).1,
   by decide⟩

theorem toChar_val (x : Nat) : (toChar x).val = x % 256 := rfl

/-- The four bytes `PatchFunction` stores after the opcode decode to the low
32 bits of the distance. -/
theorem PatchFunction_le32 (m : Memory) (F d : Nat) :
    le32 (PatchFunction m F d).bytes (F + 1) = d % 2 ^ 32 := by
  simp [le32, PatchFunction_bytes, toChar_val, Nat.add_assoc]
  omega

theorem PatchFunction64bitAddress_le32_low (m : Memory) (F D : Nat) :
    le32 (PatchFunction64bitAddress m F D).bytes (F + 1) = D % 2 ^ 32 := by
  simp [le32, PatchFunction64bitAddress_bytes, toChar_val, Nat.add_assoc]
  omega

theorem PatchFunction64bitAddress_le32_high (m : Memory) (F D : Nat) :
    le32 (PatchFunction64bitAddress m F D).bytes (F + 9) = D / 2 ^ 32 % 2 ^ 32 := by
  simp [le32, PatchFunction64bitAddress_bytes, toChar_val, Nat.add_assoc]
  omega

/-- The range predicate on the computed distance, in terms of the signed
displacement. -/
theorem IsDistanceOverflow_CalculateDistance (F D : Nat) :
    IsDistanceOverflow (CalculateDistance F D) = false ↔
      (-2 ^ 31 ≤ signedDisplacement F D ∧ signedDisplacement F D ≤ 2 ^ 31 - 1) := by
  rw [← Bool.not_eq_true, IsDistanceOverflow_iff, CalculateDistance_eq]
  unfold signedDisplacement asSigned64
  split <;> omega

theorem signedDisplacement_eq (F D : Nat) (hlo : -2 ^ 63 ≤ (D : Int) - (F : Int) - 5)
    (hhi : (D : Int) - (F : Int) - 5 < 2 ^ 63) :
    signedDisplacement F D = (D : Int) - (F : Int) - 5 := by
  unfold signedDisplacement asSigned64
  split <;> omega

/-- C2 (redirection).  For every target `F` and 64-bit destination `D`, the bytes
`SetJump` leaves at `F` decode to a control transfer to exactly `D`.  When the
backup has length 5, byte 0 is the near-jump opcode `E9` and the address after
the instruction, `F + 5`, plus the sign-extended little-endian value of bytes
1..4 is `D` modulo `2 ^ 64`.  When the backup has length 14, the bytes are
`68 imm32, C7 44 24 04 imm32, C3` and the 64-bit value with the first immediate
as low half and the second as high half is `D`.  No other length occurs. -/
theorem SetJump_redirects (m : Memory) (F D : Nat) (backup : List Byte) (hD : D < 2 ^ 64) :
    ((SetJump m F D backup).binary_backup.length = 5 →
        ((SetJump m F D backup).mem.bytes F).val = 0xE9
        ∧ ((F : Int) + 5 + signExtend32 (le32 (SetJump m F D backup).mem.bytes (F + 1)))
            % 2 ^ 64 = (D : Int))
    ∧ ((SetJump m F D backup).binary_backup.length = 14 →
        ((SetJump m F D backup).mem.bytes F).val = 0x68
        ∧ (readRange (SetJump m F D backup).mem (F + 5) 4).map Fin.val = [0xC7, 0x44, 0x24, 0x04]
        ∧ ((SetJump m F D backup).mem.bytes (F + 13)).val = 0xC3
        ∧ le32 (SetJump m F D backup).mem.bytes (F + 1)
            + 2 ^ 32 * le32 (SetJump m F D backup).mem.bytes (F + 9) = D)
    ∧ ((SetJump m F D backup).binary_backup.length = 5
        ∨ (SetJump m F D backup).binary_backup.length = 14) := by
  rcases SetJump_cases m F D backup with ⟨hov, hm, hb⟩ | ⟨hov, hm, hb⟩
  · rw [hm, hb, readRange_length]
    refine ⟨fun _ => ⟨?_, ?_⟩, fun h => absurd h (by decide), Or.inl rfl⟩
    · simp [PatchFunction_bytes, toChar_val]
    · rw [PatchFunction_le32]
      rw [← Bool.not_eq_true, IsDistanceOverflow_iff, CalculateDistance_eq] at hov
      rw [CalculateDistance_eq]
      unfold signExtend32
      split <;> omega
  · rw [hm, hb, readRange_length]
    refine ⟨fun h => absurd h (by decide), fun _ => ⟨?_, ?_, ?_, ?_⟩, Or.inr rfl⟩
    · simp [PatchFunction64bitAddress_bytes, toChar_val]
    · simp [readRange, List.range_succ, PatchFunction64bitAddress_bytes, toChar_val,
        Nat.add_assoc]
    · simp [PatchFunction64bitAddress_bytes, toChar_val]
    · rw [PatchFunction64bitAddress_le32_low, PatchFunction64bitAddress_le32_high]
      omega

/-- Witness for C2: at target `0x1000` a destination `0x2000` is reached by the
short form, whose immediate `0xFFB` added to `0x1005` gives `0x2000`, and the
far destination `0x123456789ABCDEF0` by the long form, whose two immediates
recombine to it. -/
theorem SetJump_redirects_witness :
    (8192 : Nat) < 2 ^ 64
    ∧ (SetJump prologueMemory 4096 8192 []).binary_backup.length = 5
    ∧ ((SetJump prologueMemory 4096 8192 []).mem.bytes 4096).val = 0xE9
    ∧ (((4096 : Nat) : Int) + 5
          + signExtend32 (le32 (SetJump prologueMemory 4096 8192 []).mem.bytes (4096 + 1)))
        % 2 ^ 64 = ((8192 : Nat) : Int)
    ∧ (SetJump prologueMemory 4096 0x123456789ABCDEF0 []).binary_backup.length = 14
    ∧ le32 (SetJump prologueMemory 4096 0x123456789ABCDEF0 []).mem.bytes (4096 + 1)
        + 2 ^ 32 * le32 (SetJump prologueMemory 4096 0x123456789ABCDEF0 []).mem.bytes (4096 + 9)
        = 0x123456789ABCDEF0 :=
  ⟨by norm_num, by decide,
    ((SetJump_redirects prologueMemory 4096 8192 [] (by norm_num)).1 (by decide)).1,
    ((SetJump_redirects prologueMemory 4096 8192 [] (by norm_num)).1 (by decide)).2,
    by decide,
    ((SetJump_redirects prologueMemory 4096 0x123456789ABCDEF0 [] (by norm_num)).2.1
      (by decide)).2.2.2⟩

/-- C3 (encoding selection).  For every target `F` and destination `D`: if the
signed displacement `D - F - 5` (64-bit arithmetic, read as signed) lies in
`[-2^31, 2^31 - 1]`, `SetJump` returns a backup of length exactly 5 and stores to
exactly the five addresses `F .. F + 4`; otherwise it returns a backup of
length exactly 14 and stores to exactly the fourteen addresses `F .. F + 13`.
The signed displacement is the integer `D - F - 5` whenever that integer fits
in 64 signed bits.  A displacement of exactly `2^31 - 1` or `-2^31` chooses the
short form, one of exactly `2^31` or `-2^31 - 1` the long form. -/
theorem SetJump_encoding_selection (m : Memory) (F D : Nat) (backup : List Byte) :
    ((-2 ^ 31 ≤ signedDisplacement F D ∧ signedDisplacement F D ≤ 2 ^ 31 - 1) →
        (SetJump m F D backup).binary_backup.length = 5
        ∧ (SetJump m F D backup).mem.written
            = m.written ++ [F, F + 1, F + 2, F + 3, F + 4])
    ∧ (¬ (-2 ^ 31 ≤ signedDisplacement F D ∧ signedDisplacement F D ≤ 2 ^ 31 - 1) →
        (SetJump m F D backup).binary_backup.length = 14
        ∧ (SetJump m F D backup).mem.written
            = m.written ++ [F, F + 1, F + 2, F + 3, F + 4, F + 5, F + 6, F + 7, F + 8, F + 9,
                F + 10, F + 11, F + 12, F + 13])
    ∧ (-2 ^ 63 ≤ (D : Int) - (F : Int) - 5 → (D : Int) - (F : Int) - 5 < 2 ^ 63 →
        signedDisplacement F D = (D : Int) - (F : Int) - 5)
    ∧ ((D : Int) - (F : Int) - 5 = 2 ^ 31 - 1 → (SetJump m F D backup).binary_backup.length = 5)
    ∧ ((D : Int) - (F : Int) - 5 = -2 ^ 31 → (SetJump m F D backup).binary_backup.length = 5)
    ∧ ((D : Int) - (F : Int) - 5 = 2 ^ 31 → (SetJump m F D backup).binary_backup.length = 14)
    ∧ ((D : Int) - (F : Int) - 5 = -2 ^ 31 - 1 →
        (SetJump m F D backup).binary_backup.length = 14) := by
  have hshort : (-2 ^ 31 ≤ signedDisplacement F D ∧ signedDisplacement F D ≤ 2 ^ 31 - 1) →
      (SetJump m F D backup).binary_backup.length = 5
      ∧ (SetJump m F D backup).mem.written = m.written ++ [F, F + 1, F + 2, F + 3, F + 4] := by
    intro h
    rw [SetJump_short m F D backup ((IsDistanceOverflow_CalculateDistance F D).2 h)]
    exact ⟨readRange_length m F 5, PatchFunction_written m F _⟩
  have hlong : ¬ (-2 ^ 31 ≤ signedDisplacement F D ∧ signedDisplacement F D ≤ 2 ^ 31 - 1) →
      (SetJump m F D backup).binary_backup.length = 14
      ∧ (SetJump m F D backup).mem.written
          = m.written ++ [F, F + 1, F + 2, F + 3, F + 4, F + 5, F + 6, F + 7, F + 8, F + 9,
              F + 10, F + 11, F + 12, F + 13] := by
    intro h
    have hov : IsDistanceOverflow (CalculateDistance F D) = true := by
      cases hc : IsDistanceOverflow (CalculateDistance F D)
      · exact absurd ((IsDistanceOverflow_CalculateDistance F D).1 hc) h
      · rfl
    rw [SetJump_long m F D backup hov]
    exact ⟨readRange_length m F 14, PatchFunction64bitAddress_written m F D⟩
  refine ⟨hshort, hlong, signedDisplacement_eq F D, ?_, ?_, ?_, ?_⟩
  · intro h
    have := signedDisplacement_eq F D (by omega) (by omega)
    exact (hshort (by omega)).1
  · intro h
    have := signedDisplacement_eq F D (by omega) (by omega)
    exact (hshort (by omega)).1
  · intro h
    have := signedDisplacement_eq F D (by omega) (by omega)
    exact (hlong (by omega)).1
  · intro h
    have := signedDisplacement_eq F D (by omega) (by omega)
    exact (hlong (by omega)).1

/-- Instance of C3: the four boundary displacements at concrete addresses. -/
theorem SetJump_encoding_selection_witness :
    (SetJump prologueMemory 4096 (4096 + 5 + (2 ^ 31 - 1)) []).binary_backup.length = 5
    ∧ (SetJump prologueMemory (2 ^ 32) (2 ^ 32 + 5 - 2 ^ 31) []).binary_backup.length = 5
    ∧ (SetJump prologueMemory 4096 (4096 + 5 + 2 ^ 31) []).binary_backup.length = 14
    ∧ (SetJump prologueMemory (2 ^ 32) (2 ^ 32 + 5 - 2 ^ 31 - 1) []).binary_backup.length = 14 :=
  ⟨(SetJump_encoding_selection prologueMemory 4096 (4096 + 5 + (2 ^ 31 - 1)) []).2.2.2.1
      (by norm_num),
   (SetJump_encoding_selection prologueMemory (2 ^ 32) (2 ^ 32 + 5 - 2 ^ 31) []).2.2.2.2.1
      (by norm_num),
   (SetJump_encoding_selection prologueMemory 4096 (4096 + 5 + 2 ^ 31) []).2.2.2.2.2.1
      (by norm_num),
   (SetJump_encoding_selection prologueMemory (2 ^ 32) (2 ^ 32 + 5 - 2 ^ 31 - 1) []).2.2.2.2.2.2
      (by norm_num)⟩

/-! ## Byte layouts -/

/-- C4 (short-form byte layout).  For every memory, target `F` and displacement
value `d`, `PatchFunction` leaves byte 0 at `F` equal to `0xE9` and bytes 1..4
equal to the little-endian encoding of the low 32 bits of `d`, least
significant byte first, having stored to exactly `F .. F + 4`.  Scenario: if
the five bytes at `F` are `55 48 89 E5 90` and the destination is `F + 21`
(displacement `0x10`), then after `SetJump` the five bytes are `E9 10 00 00 00`,
the backup is `55 48 89 E5 90`, and after `RevertPatch` with that backup the
five bytes are `55 48 89 E5 90` again. -/
theorem PatchFunction_layout (m : Memory) (F d : Nat) (backup : List Byte) :
    ((PatchFunction m F d).bytes F).val = 0xE9
    ∧ (readRange (PatchFunction m F d) (F + 1) 4).map Fin.val = littleEndian32 (d % 2 ^ 32)
    ∧ (PatchFunction m F d).written = m.written ++ [F, F + 1, F + 2, F + 3, F + 4]
    ∧ ((readRange m F 5).map Fin.val = [0x55, 0x48, 0x89, 0xE5, 0x90] →
        CalculateDistance F (F + 21) = 0x10
        ∧ (readRange (SetJump m F (F + 21) backup).mem F 5).map Fin.val
            = [0xE9, 0x10, 0x00, 0x00, 0x00]
        ∧ (SetJump m F (F + 21) backup).binary_backup.map Fin.val
            = [0x55, 0x48, 0x89, 0xE5, 0x90]
        ∧ (readRange (RevertPatch (SetJump m F (F + 21) backup).mem F
              (SetJump m F (F + 21) backup).binary_backup) F 5).map Fin.val
            = [0x55, 0x48, 0x89, 0xE5, 0x90]) := by
  refine ⟨?_, ?_, PatchFunction_written m F d, ?_⟩
  · simp [PatchFunction_bytes, toChar_val]
  · simp [readRange, List.range_succ, PatchFunction_bytes, toChar_val, littleEndian32,
      Nat.add_assoc]
    refine ⟨?_, ?_, ?_, ?_⟩ <;> omega
  · intro horig
    have hd : CalculateDistance F (F + 21) = 0x10 := by
      rw [CalculateDistance_eq]; omega
    have hov : IsDistanceOverflow (CalculateDistance F (F + 21)) = false := by
      rw [hd]; decide
    have hback : (SetJump m F (F + 21) backup).binary_backup = readRange m F 5 := by
      rw [SetJump_short m F (F + 21) backup hov]
    have hmem : (SetJump m F (F + 21) backup).mem = PatchFunction m F 0x10 := by
      rw [SetJump_short m F (F + 21) backup hov, hd]
    refine ⟨hd, ?_, ?_, ?_⟩
    · rw [hmem]
      simp [readRange, List.range_succ, PatchFunction_bytes, toChar_val, Nat.add_assoc]
    · rw [hback]; exact horig
    · have hrt := RevertPatch_SetJump_bytes m F (F + 21) backup
      rw [← horig]
      simp only [readRange, hrt]

/-- Witness for C4: the scenario at the prologue memory, target `0x1000`. -/
theorem PatchFunction_layout_witness :
    (readRange prologueMemory 4096 5).map Fin.val = [0x55, 0x48, 0x89, 0xE5, 0x90]
    ∧ (readRange (SetJump prologueMemory 4096 (4096 + 21) []).mem 4096 5).map Fin.val
        = [0xE9, 0x10, 0x00, 0x00, 0x00]
    ∧ (readRange (RevertPatch (SetJump prologueMemory 4096 (4096 + 21) []).mem 4096
          (SetJump prologueMemory 4096 (4096 + 21) []).binary_backup) 4096 5).map Fin.val
        = [0x55, 0x48, 0x89, 0xE5, 0x90] :=
  ⟨by decide,
   ((PatchFunction_layout prologueMemory 4096 0 []).2.2.2 (by decide)).2.1,
   ((PatchFunction_layout prologueMemory 4096 0 []).2.2.2 (by decide)).2.2.2⟩

/-- C5 (long-form byte layout).  For every memory, target `F` and destination
`D`, `PatchFunction64bitAddress` leaves exactly these 14 bytes at `F`: `0x68`,
the four little-endian bytes of the low 32 bits of `D`, `0xC7 0x44 0x24 0x04`, the
four little-endian bytes of the high 32 bits of `D`, and `0xC3`; it stores to
exactly the fourteen addresses `F .. F + 13`. -/
theorem PatchFunction64bitAddress_layout (m : Memory) (F D : Nat) :
    (readRange (PatchFunction64bitAddress m F D) F 14).map Fin.val
        = [0x68] ++ littleEndian32 (D % 2 ^ 32) ++ [0xC7, 0x44, 0x24, 0x04]
            ++ littleEndian32 (D / 2 ^ 32 % 2 ^ 32) ++ [0xC3]
    ∧ (PatchFunction64bitAddress m F D).written
        = m.written ++ [F, F + 1, F + 2, F + 3, F + 4, F + 5, F + 6, F + 7, F + 8, F + 9,
            F + 10, F + 11, F + 12, F + 13] := by
  refine ⟨?_, PatchFunction64bitAddress_written m F D⟩
  simp [readRange, List.range_succ, PatchFunction64bitAddress_bytes, toChar_val, littleEndian32,
    Nat.add_assoc]
  refine ⟨?_, ?_, ?_, ?_, ?_, ?_, ?_, ?_⟩ <;> omega

/-- Instance of C5: the fourteen bytes for destination `0x123456789ABCDEF0`. -/
theorem PatchFunction64bitAddress_layout_witness :
    (readRange (PatchFunction64bitAddress prologueMemory 4096 0x123456789ABCDEF0) 4096 14).map
        Fin.val
      = [0x68, 0xF0, 0xDE, 0xBC, 0x9A, 0xC7, 0x44, 0x24, 0x04, 0x78, 0x56, 0x34, 0x12, 0xC3] :=
  (PatchFunction64bitAddress_layout prologueMemory 4096 0x123456789ABCDEF0).1.trans (by decide)

/-! ## Frame conditions, backup and revert -/

/-- C6 (install does not corrupt adjacent code).  For every memory, target `F`
and destination `D`, `SetJump` leaves every byte at an address outside
`[F, F + len)` unchanged, `len` being the length (5 or 14) of the backup it
returns, and the addresses it stores to are exactly `F, F + 1, ..., F + len - 1`:
none before `F`, none at or after `F + len`. -/
theorem SetJump_frame (m : Memory) (F D : Nat) (backup : List Byte) :
    (∀ a, (a < F ∨ F + (SetJump m F D backup).binary_backup.length ≤ a) →
        (SetJump m F D backup).mem.bytes a = m.bytes a)
    ∧ (SetJump m F D backup).mem.written
        = m.written ++ addressRange F (SetJump m F D backup).binary_backup.length
    ∧ (∀ a, a ∈ addressRange F (SetJump m F D backup).binary_backup.length ↔
        (F ≤ a ∧ a < F + (SetJump m F D backup).binary_backup.length))
    ∧ ((SetJump m F D backup).binary_backup.length = 5
        ∨ (SetJump m F D backup).binary_backup.length = 14) := by
  have hmem : ∀ n a, a ∈ addressRange F n ↔ (F ≤ a ∧ a < F + n) := by
    intro n a
    simp only [addressRange, List.mem_map, List.mem_range]
    constructor
    · rintro ⟨i, hi, rfl⟩; omega
    · intro h; exact ⟨a - F, by omega, by omega⟩
  rcases SetJump_cases m F D backup with ⟨_, hm, hb⟩ | ⟨_, hm, hb⟩
  · rw [hm, hb, readRange_length]
    refine ⟨fun a ha => PatchFunction_frame m F _ a ha, ?_, hmem 5, Or.inl rfl⟩
    rw [PatchFunction_written]; rfl
  · rw [hm, hb, readRange_length]
    refine ⟨fun a ha => PatchFunction64bitAddress_frame m F D a ha, ?_, hmem 14, Or.inr rfl⟩
    rw [PatchFunction64bitAddress_written]; rfl

/-- Instance of C6: patching `0x1000` towards `0x2000` leaves the bytes at
`0xFFF` and `0x1005` as they were. -/
theorem SetJump_frame_witness :
    (SetJump prologueMemory 4096 8192 []).mem.bytes 4095 = prologueMemory.bytes 4095
    ∧ (SetJump prologueMemory 4096 8192 []).mem.bytes 4101 = prologueMemory.bytes 4101 :=
  ⟨(SetJump_frame prologueMemory 4096 8192 []).1 4095 (Or.inl (by decide)),
   (SetJump_frame prologueMemory 4096 8192 []).1 4101 (Or.inr (by decide))⟩

/-- C7 (backup content).  For every memory `m`, target `F` and destination `D`,
the backup `b` returned by `SetJump` satisfies `b[i] = m(F + i)` for every
`i < len(b)`, `m` being the memory before the call (so the bytes are those from
before the patch is written), and `b` does not depend on what the caller's
vector held before: it replaces that content, it is not appended to it. -/
theorem SetJump_backup_content (m : Memory) (F D : Nat) (backup : List Byte) :
    (∀ i (h : i < (SetJump m F D backup).binary_backup.length),
        (SetJump m F D backup).binary_backup.get ⟨i, h⟩ = m.bytes (F + i))
    ∧ (SetJump m F D backup).binary_backup = (SetJump m F D []).binary_backup
    ∧ ((SetJump m F D backup).binary_backup.length = 5
        ∨ (SetJump m F D backup).binary_backup.length = 14) := by
  have hget : ∀ n (bs : List Byte), bs = readRange m F n →
      ∀ i (h : i < bs.length), bs.get ⟨i, h⟩ = m.bytes (F + i) := by
    intro n bs hbs i h
    subst hbs
    exact readRange_get m F n i h
  rcases SetJump_cases m F D backup with ⟨_, _, hb⟩ | ⟨hov, _, hb⟩
  · refine ⟨hget 5 _ hb, ?_, Or.inl (by rw [hb, readRange_length])⟩
    rcases SetJump_cases m F D [] with ⟨_, _, hb0⟩ | ⟨hov0, _, _⟩
    · rw [hb, hb0]
    · simp_all
  · refine ⟨hget 14 _ hb, ?_, Or.inr (by rw [hb, readRange_length])⟩
    rcases SetJump_cases m F D [] with ⟨hov0, _, _⟩ | ⟨_, _, hb0⟩
    · simp_all
    · rw [hb, hb0]

/-- Instance of C7: with a caller's vector already holding three bytes, the
backup of the prologue is the five prologue bytes and nothing else. -/
theorem SetJump_backup_content_witness :
    (SetJump prologueMemory 4096 8192 [1, 2, 3]).binary_backup
      = [0x55, 0x48, 0x89, 0xE5, 0x90] :=
  ((SetJump_backup_content prologueMemory 4096 8192 [1, 2, 3]).2.1).trans (by decide)

/-- C8 (revert copies exactly the backup's length).  For every memory `m`,
address `F` and backup `b`, after `RevertPatch` the byte at `F + i` equals `b[i]`
for every `i < len(b)`, every byte at an address outside `[F, F + len(b))` has
its value in `m`, and the stores made are exactly those to
`F, F + 1, ..., F + len(b) - 1`, `len(b)` of them.  `RestoreJump` is the same
operation. -/
theorem RevertPatch_exact (m : Memory) (F : Nat) (b : List Byte) :
    (∀ i (h : i < b.length), (RevertPatch m F b).bytes (F + i) = b.get ⟨i, h⟩)
    ∧ (∀ a, (a < F ∨ F + b.length ≤ a) → (RevertPatch m F b).bytes a = m.bytes a)
    ∧ (RevertPatch m F b).written = m.written ++ addressRange F b.length
    ∧ (addressRange F b.length).length = b.length
    ∧ RestoreJump m F b = RevertPatch m F b :=
  ⟨fun i h => copy_bytes_inside b F m i h,
   fun a ha => copy_bytes_outside b F m a ha,
   copy_written b F m,
   by simp [addressRange],
   rfl⟩

/-- Instance of C8: reverting with a two-byte backup at `0x1001` writes those two
bytes and leaves both neighbours alone. -/
theorem RevertPatch_exact_witness :
    readRange (RevertPatch prologueMemory 4097 [0xAA, 0xBB]) 4096 4 = [0x55, 0xAA, 0xBB, 0xE5]
    ∧ (RevertPatch prologueMemory 4097 [0xAA, 0xBB]).written = [4097, 4098] :=
  ⟨by decide, ((RevertPatch_exact prologueMemory 4097 [0xAA, 0xBB]).2.2.1).trans (by decide)⟩

/-! ## The guarded run and the unguarded one -/

theorem Machine_store_writable (m : Memory) (w : Nat → Bool) (a : Nat) (v : Byte)
    (hw : w a = true) :
    Machine.store { mem := m, writable := w, faulted := false } a v
      = { mem := m.store a v, writable := w, faulted := false } := by
  simp [Machine.store, hw]

theorem Machine_store_faulted (m : Memory) (w : Nat → Bool) (a : Nat) (v : Byte) :
    Machine.store { mem := m, writable := w, faulted := true } a v
      = { mem := m, writable := w, faulted := true } := by
  simp [Machine.store]

/-- While every address it stores to is writable, the guarded copy does what
the plain copy does. -/
theorem Guarded_copy_writable (bs : List Byte) (d : Nat) (m : Memory) (w : Nat → Bool)
    (hw : ∀ i, i < bs.length → w (d + i) = true) :
    Guarded.copy bs d { mem := m, writable := w, faulted := false }
      = { mem := copy bs d m, writable := w, faulted := false } := by
  induction bs generalizing d m with
  | nil => rfl
  | cons b bs ih =>
    simp only [Guarded.copy, copy]
    rw [Machine_store_writable m w d b (by simpa using hw 0 (by simp))]
    apply ih
    intro i hi
    have := hw (i + 1) (by simpa using hi)
    rwa [show d + (i + 1) = d + 1 + i by omega] at this

theorem Guarded_PatchFunction_writable (m : Memory) (w : Nat → Bool) (F d : Nat)
    (hw : ∀ i, i < 5 → w (F + i) = true) :
    Guarded.PatchFunction { mem := m, writable := w, faulted := false } F d
      = { mem := PatchFunction m F d, writable := w, faulted := false } := by
  unfold Guarded.PatchFunction PatchFunction
  simp only []
  rw [Machine_store_writable m w F _ (by simpa using hw 0 (by decide))]
  apply Guarded_copy_writable
  intro i hi
  have hi4 : i < 4 := by simpa [objectBytes] using hi
  have := hw (i + 1) (by omega)
  rwa [show F + (i + 1) = F + 1 + i by omega] at this

theorem Guarded_PatchFunction64bitAddress_writable (m : Memory) (w : Nat → Bool) (F D : Nat)
    (hw : ∀ i, i < 14 → w (F + i) = true) :
    Guarded.PatchFunction64bitAddress { mem := m, writable := w, faulted := false } F D
      = { mem := PatchFunction64bitAddress m F D, writable := w, faulted := false } := by
  unfold Guarded.PatchFunction64bitAddress PatchFunction64bitAddress
  simp only []
  have hcopy1 : ∀ (x : Memory), Guarded.copy ((objectBytes D).take 4) (F + 1)
      { mem := x, writable := w, faulted := false }
      = { mem := copy ((objectBytes D).take 4) (F + 1) x, writable := w, faulted := false } := by
    intro x
    apply Guarded_copy_writable
    intro i hi
    have hi4 : i < 4 := by simpa [objectBytes] using hi
    have := hw (i + 1) (by omega)
    rwa [show F + (i + 1) = F + 1 + i by omega] at this
  have hcopy2 : ∀ (x : Memory), Guarded.copy (((objectBytes D).drop 4).take 4) (F + 9)
      { mem := x, writable := w, faulted := false }
      = { mem := copy (((objectBytes D).drop 4).take 4) (F + 9) x, writable := w,
          faulted := false } := by
    intro x
    apply Guarded_copy_writable
    intro i hi
    have hi4 : i < 4 := by simpa [objectBytes] using hi
    have := hw (i + 9) (by omega)
    rwa [show F + (i + 9) = F + 9 + i by omega] at this
  rw [Machine_store_writable m w F _ (by simpa using hw 0 (by decide)), hcopy1,
    Machine_store_writable _ w (F + 5) _ (hw 5 (by decide)),
    Machine_store_writable _ w (F + 6) _ (hw 6 (by decide)),
    Machine_store_writable _ w (F + 7) _ (hw 7 (by decide)),
    Machine_store_writable _ w (F + 8) _ (hw 8 (by decide)), hcopy2,
    Machine_store_writable _ w (F + 13) _ (hw 13 (by decide))]

/-- While every address of the patch is writable, the guarded `SetJump` does
not fault and leaves what the plain `SetJump` leaves. -/
theorem Guarded_SetJump_writable (m : Memory) (w : Nat → Bool) (F D : Nat)
    (backup : List Byte)
    (hw : ∀ i, i < (SetJump m F D backup).binary_backup.length → w (F + i) = true) :
    Guarded.SetJump { mem := m, writable := w, faulted := false } F D backup
      = { state := { mem := (SetJump m F D backup).mem, writable := w, faulted := false }
          binary_backup := (SetJump m F D backup).binary_backup
          ret := (SetJump m F D backup).ret } := by
  cases hov : IsDistanceOverflow (CalculateDistance F D)
  · rw [SetJump_short m F D backup hov] at hw ⊢
    simp only [readRange_length] at hw
    simp only [Guarded.SetJump, hov, BackupBinary]
    rw [Guarded_PatchFunction_writable m w F _ hw]
    rfl
  · rw [SetJump_long m F D backup hov] at hw ⊢
    simp only [readRange_length] at hw
    simp only [Guarded.SetJump, hov, BackupBinary]
    rw [Guarded_PatchFunction64bitAddress_writable m w F D hw]
    rfl

/-! ## Protection failure -/

/-- A refused request: `SetFunctionJump` ends in `abort`, having reported `errno`,
with memory and the caller's vector exactly as they were. -/
theorem SetFunctionJump_refused (h : Host) (m : Memory) (F D : Nat) (backup : List Byte)
    (hne : UnprotectMemoryForOnePage h F ≠ 0) :
    SetFunctionJump h m F D backup
      = Outcome.aborted m backup ("Unprotect memory meet errno: " ++ toString h.errno ++ "\n") := by
  unfold SetFunctionJump
  simp only []
  rw [if_pos (Ne.symm hne)]

/-- A granted request with every address of the patch writable afterwards:
`SetFunctionJump` returns what `SetJump` returns. -/
theorem SetFunctionJump_granted (h : Host) (m : Memory) (F D : Nat) (backup : List Byte)
    (hz : UnprotectMemoryForOnePage h F = 0)
    (hw : ∀ i, i < (SetJump m F D backup).binary_backup.length →
      afterMprotect h.writable h.PageSize (AlignAddress F h.PageSize) h.PageSize (F + i) = true) :
    SetFunctionJump h m F D backup = Outcome.returned (SetJump m F D backup) := by
  unfold SetFunctionJump
  simp only []
  rw [if_neg (fun hne => hne hz.symm), Guarded_SetJump_writable m _ F D backup hw]
  rfl

/-- Masking a 64-bit value with `2 ^ 64 - 2 ^ k` clears its `k` low bits. -/
theorem land_high_mask (a k : Nat) (hk : k ≤ 64) (ha : a < 2 ^ 64) :
    a &&& (2 ^ 64 - 2 ^ k) = 2 ^ k * (a / 2 ^ k) := by
  have hpos : 0 < 2 ^ k := Nat.two_pow_pos k
  have hle : 2 ^ k ≤ 2 ^ 64 := Nat.pow_le_pow_right (by decide) hk
  have hmask : 2 ^ 64 - 2 ^ k = 2 ^ 64 - ((2 ^ k - 1) + 1) := by omega
  apply Nat.eq_of_testBit_eq
  intro i
  rw [Nat.testBit_and, hmask, Nat.testBit_two_pow_sub_succ (by omega), Nat.testBit_two_pow_sub_one,
    Nat.testBit_mul_pow_two, ← Nat.shiftRight_eq_div_pow, Nat.testBit_shiftRight]
  by_cases hik : i < k
  · simp [hik, Nat.not_le_of_lt hik]
  · have hki : k ≤ i := Nat.le_of_not_lt hik
    rw [show k + (i - k) = i by omega]
    by_cases hi : i < 64
    · simp [hik, hki, hi]
    · have hfalse : a.testBit i = false :=
        Nat.testBit_lt_two_pow (Nat.lt_of_lt_of_le ha (Nat.pow_le_pow_right (by decide) (by omega)))
      simp [hfalse]

/-- For a power-of-two page size below `2 ^ 64`, `AlignAddress` rounds a 64-bit
address down to a multiple of the page size. -/
theorem AlignAddress_eq (a k : Nat) (hk : k < 64) (ha : a < 2 ^ 64) :
    AlignAddress a (2 ^ k) = 2 ^ k * (a / 2 ^ k) := by
  have hpos : 0 < 2 ^ k := Nat.two_pow_pos k
  have hlt : 2 ^ k < 2 ^ 64 := Nat.pow_lt_pow_right (by decide) hk
  rw [← land_high_mask a k (Nat.le_of_lt hk) ha]
  unfold AlignAddress notSizeT toSizeT
  generalize 2 ^ k = S at hpos hlt
  congr 1
  omega

/-- C10 (page-alignment correctness).  For every page size `S = 2 ^ k` that a
`std::size_t` can hold, every multiple `P` of `S` and every 64-bit address `a`
with `P ≤ a < P + S` (so also `a = P` and `a = P + S - 1`), `AlignAddress a S = P`;
and, when `P + S` is itself a 64-bit address, `AlignAddress (P + S) S = P + S`,
the next page. -/
theorem AlignAddress_page (k P : Nat) (hk : k < 64) (hP : 2 ^ k ∣ P) :
    (∀ a, P ≤ a → a < P + 2 ^ k → a < 2 ^ 64 → AlignAddress a (2 ^ k) = P)
    ∧ (P + 2 ^ k - 1 < 2 ^ 64 → AlignAddress P (2 ^ k) = P
        ∧ AlignAddress (P + 2 ^ k - 1) (2 ^ k) = P)
    ∧ (P + 2 ^ k < 2 ^ 64 → AlignAddress (P + 2 ^ k) (2 ^ k) = P + 2 ^ k) := by
  have hpos : 0 < 2 ^ k := Nat.two_pow_pos k
  obtain ⟨q, rfl⟩ := hP
  have hin : ∀ a, 2 ^ k * q ≤ a → a < 2 ^ k * q + 2 ^ k → a < 2 ^ 64 →
      AlignAddress a (2 ^ k) = 2 ^ k * q := by
    intro a hlo hhi ha
    rw [AlignAddress_eq a k hk ha]
    congr 1
    apply Nat.div_eq_of_lt_le
    · rw [Nat.mul_comm]; exact hlo
    · rw [Nat.succ_mul, Nat.mul_comm]; exact hhi
  refine ⟨hin, fun h => ⟨hin _ (Nat.le_refl _) (by omega) (by omega), hin _ (by omega) (by omega) h⟩, ?_⟩
  intro h
  rw [AlignAddress_eq _ k hk h]
  have : (2 ^ k * q + 2 ^ k) / 2 ^ k = q + 1 := by
    rw [show 2 ^ k * q + 2 ^ k = 2 ^ k * (q + 1) by rw [Nat.mul_add, Nat.mul_one]]
    exact Nat.mul_div_cancel_left _ hpos
  rw [this, Nat.mul_add, Nat.mul_one]

/-- Witness for C10: 4 KiB pages (`k = 12`) and the page at `0x2000`. -/
theorem AlignAddress_page_witness :
    (12 < 64) ∧ (2 ^ 12 ∣ 8192)
    ∧ AlignAddress 8192 (2 ^ 12) = 8192
    ∧ AlignAddress 10000 (2 ^ 12) = 8192
    ∧ AlignAddress (8192 + 2 ^ 12 - 1) (2 ^ 12) = 8192
    ∧ AlignAddress (8192 + 2 ^ 12) (2 ^ 12) = 8192 + 2 ^ 12 :=
  ⟨by decide, by decide,
   ((AlignAddress_page 12 8192 (by decide) (by decide)).2.1 (by decide)).1,
   (AlignAddress_page 12 8192 (by decide) (by decide)).1 10000 (by decide) (by decide)
      (by decide),
   ((AlignAddress_page 12 8192 (by decide) (by decide)).2.1 (by decide)).2,
   (AlignAddress_page 12 8192 (by decide) (by decide)).2.2 (by decide)⟩

/-! ## Lemmas for sequences of installs and reverts -/

theorem SetJump_backup_length (m : Memory) (F D : Nat) (backup : List Byte) :
    (SetJump m F D backup).binary_backup.length
      = if IsDistanceOverflow (CalculateDistance F D) = true then 14 else 5 := by
  rcases SetJump_cases m F D backup with ⟨hov, _, hb⟩ | ⟨hov, _, hb⟩
  · rw [hb, readRange_length, hov]; rfl
  · rw [hb, readRange_length, hov]; rfl

/-- The length of the backup depends on the two addresses only. -/
theorem SetJump_length_indep (m m1 : Memory) (F D : Nat) (backup backup1 : List Byte) :
    (SetJump m F D backup).binary_backup.length
      = (SetJump m1 F D backup1).binary_backup.length := by
  rw [SetJump_backup_length, SetJump_backup_length]

theorem SetJump_backup_eq (m : Memory) (F D : Nat) (backup : List Byte) :
    (SetJump m F D backup).binary_backup
      = readRange m F (SetJump m F D backup).binary_backup.length := by
  rcases SetJump_cases m F D backup with ⟨_, _, hb⟩ | ⟨_, _, hb⟩
  · rw [hb, readRange_length]
  · rw [hb, readRange_length]

theorem SetJump_bytes_outside (m : Memory) (F D : Nat) (backup : List Byte) (a : Nat)
    (h : a < F ∨ F + (SetJump m F D backup).binary_backup.length ≤ a) :
    (SetJump m F D backup).mem.bytes a = m.bytes a := by
  rcases SetJump_cases m F D backup with ⟨_, hm, hb⟩ | ⟨_, hm, hb⟩
  · rw [hb, readRange_length] at h
    rw [hm]; exact PatchFunction_frame m F _ a h
  · rw [hb, readRange_length] at h
    rw [hm]; exact PatchFunction64bitAddress_frame m F D a h

/-- Inside the patched range the bytes `SetJump` leaves depend on the two
addresses only, not on the memory it ran on. -/
theorem SetJump_bytes_inside_indep (m m1 : Memory) (F D : Nat) (backup backup1 : List Byte)
    (a : Nat) (hlo : F ≤ a) (hhi : a < F + (SetJump m F D backup).binary_backup.length) :
    (SetJump m F D backup).mem.bytes a = (SetJump m1 F D backup1).mem.bytes a := by
  cases hov : IsDistanceOverflow (CalculateDistance F D)
  · rw [SetJump_short m F D backup hov] at hhi ⊢
    rw [SetJump_short m1 F D backup1 hov]
    simp only [readRange_length] at hhi
    have hcase : a = F ∨ a = F + 1 ∨ a = F + 2 ∨ a = F + 3 ∨ a = F + 4 := by omega
    rcases hcase with h | h | h | h | h <;> subst h <;> simp [PatchFunction_bytes]
  · rw [SetJump_long m F D backup hov] at hhi ⊢
    rw [SetJump_long m1 F D backup1 hov]
    simp only [readRange_length] at hhi
    have hcase : a = F ∨ a = F + 1 ∨ a = F + 2 ∨ a = F + 3 ∨ a = F + 4 ∨ a = F + 5
        ∨ a = F + 6 ∨ a = F + 7 ∨ a = F + 8 ∨ a = F + 9 ∨ a = F + 10 ∨ a = F + 11
        ∨ a = F + 12 ∨ a = F + 13 := by omega
    rcases hcase with h | h | h | h | h | h | h | h | h | h | h | h | h | h <;> subst h <;>
      simp [PatchFunction64bitAddress_bytes]

theorem readRange_congr (m m1 : Memory) (F n : Nat)
    (h : ∀ a, F ≤ a → a < F + n → m.bytes a = m1.bytes a) :
    readRange m F n = readRange m1 F n := by
  unfold readRange
  apply List.map_congr_left
  intro i hi
  exact h (F + i) (by omega) (by have := List.mem_range.1 hi; omega)

/-- The contents `copy` leaves depend on the contents it starts from only. -/
theorem copy_bytes_congr (bs : List Byte) (d : Nat) (m m1 : Memory) (h : m.bytes = m1.bytes) :
    (copy bs d m).bytes = (copy bs d m1).bytes := by
  funext a
  by_cases ha : a < d ∨ d + bs.length ≤ a
  · rw [copy_bytes_outside bs d m a ha, copy_bytes_outside bs d m1 a ha, h]
  · have hi : a - d < bs.length := by omega
    have e1 := copy_bytes_inside bs d m (a - d) hi
    have e2 := copy_bytes_inside bs d m1 (a - d) hi
    rw [show d + (a - d) = a by omega] at e1 e2
    rw [e1, e2]

/-- Copying the same bytes to the same place a second time changes no
contents. -/
theorem copy_copy_bytes (bs : List Byte) (d : Nat) (m : Memory) :
    (copy bs d (copy bs d m)).bytes = (copy bs d m).bytes := by
  funext a
  by_cases ha : a < d ∨ d + bs.length ≤ a
  · rw [copy_bytes_outside bs d _ a ha]
  · have hi : a - d < bs.length := by omega
    have e1 := copy_bytes_inside bs d (copy bs d m) (a - d) hi
    have e2 := copy_bytes_inside bs d m (a - d) hi
    rw [show d + (a - d) = a by omega] at e1 e2
    rw [e1, e2]

/-! ## Double revert -/

/-- C11 (double revert).  For every memory, address `F` and backup `b`, running
`RevertPatch` twice leaves the same contents as running it once, the second
run storing the same `len(b)` bytes to the same addresses again.  In
particular, after `SetJump` followed by `RevertPatch` with the returned backup,
a second `RevertPatch` with that backup leaves the contents unchanged and equal
to the pre-install contents. -/
theorem RevertPatch_idempotent (m : Memory) (F D : Nat) (b backup : List Byte) :
    (RevertPatch (RevertPatch m F b) F b).bytes = (RevertPatch m F b).bytes
    ∧ (RevertPatch (RevertPatch m F b) F b).written
        = (RevertPatch m F b).written ++ addressRange F b.length
    ∧ (RevertPatch
          (RevertPatch (SetJump m F D backup).mem F (SetJump m F D backup).binary_backup) F
          (SetJump m F D backup).binary_backup).bytes
        = (RevertPatch (SetJump m F D backup).mem F (SetJump m F D backup).binary_backup).bytes
    ∧ (RevertPatch
          (RevertPatch (SetJump m F D backup).mem F (SetJump m F D backup).binary_backup) F
          (SetJump m F D backup).binary_backup).bytes
        = m.bytes := by
  refine ⟨copy_copy_bytes b F m, copy_written b F _, copy_copy_bytes _ F _, ?_⟩
  have h2 : (RevertPatch
      (RevertPatch (SetJump m F D backup).mem F (SetJump m F D backup).binary_backup) F
      (SetJump m F D backup).binary_backup).bytes
      = (RevertPatch (SetJump m F D backup).mem F (SetJump m F D backup).binary_backup).bytes :=
    copy_copy_bytes _ F _
  rw [h2]
  exact RevertPatch_SetJump_bytes m F D backup

/-- Instance of C11: install at `0x1000` towards `0x2000`, then revert twice; the
five bytes are the prologue again. -/
theorem RevertPatch_idempotent_witness :
    readRange
      (RevertPatch
        (RevertPatch (SetJump prologueMemory 4096 8192 []).mem 4096
          (SetJump prologueMemory 4096 8192 []).binary_backup) 4096
        (SetJump prologueMemory 4096 8192 []).binary_backup) 4096 5
      = readRange prologueMemory 4096 5 := by
  have h := (RevertPatch_idempotent prologueMemory 4096 8192 [] []).2.2.2
  simp only [readRange, h]

/-! ## Patches at different addresses -/

/-- A patch elsewhere does not change what a later install backs up. -/
theorem SetJump_backup_disjoint (m : Memory) (F1 D1 F2 D2 : Nat) (backup1 backup2 : List Byte)
    (hdisj : F1 + (SetJump m F1 D1 backup1).binary_backup.length ≤ F2
      ∨ F2 + (SetJump m F2 D2 backup2).binary_backup.length ≤ F1) :
    (SetJump (SetJump m F1 D1 backup1).mem F2 D2 backup2).binary_backup
      = (SetJump m F2 D2 backup2).binary_backup := by
  have hl2 := SetJump_length_indep (SetJump m F1 D1 backup1).mem m F2 D2 backup2 backup2
  rw [SetJump_backup_eq (SetJump m F1 D1 backup1).mem, SetJump_backup_eq m F2 D2 backup2, hl2]
  apply readRange_congr
  intro a hlo hhi
  exact SetJump_bytes_outside m F1 D1 backup1 a (by omega)

/-- Installs on disjoint ranges commute as far as contents go. -/
theorem SetJump_comm_bytes (m : Memory) (F1 D1 F2 D2 : Nat) (backup1 backup2 : List Byte)
    (hdisj : F1 + (SetJump m F1 D1 backup1).binary_backup.length ≤ F2
      ∨ F2 + (SetJump m F2 D2 backup2).binary_backup.length ≤ F1) :
    (SetJump (SetJump m F1 D1 backup1).mem F2 D2 backup2).mem.bytes
      = (SetJump (SetJump m F2 D2 backup2).mem F1 D1 backup1).mem.bytes := by
  have hl1 := SetJump_length_indep (SetJump m F2 D2 backup2).mem m F1 D1 backup1 backup1
  have hl2 := SetJump_length_indep (SetJump m F1 D1 backup1).mem m F2 D2 backup2 backup2
  funext a
  by_cases h2 : F2 ≤ a ∧ a < F2 + (SetJump m F2 D2 backup2).binary_backup.length
  · rw [SetJump_bytes_inside_indep (SetJump m F1 D1 backup1).mem m F2 D2 backup2 backup2 a h2.1
        (by omega),
      SetJump_bytes_outside (SetJump m F2 D2 backup2).mem F1 D1 backup1 a (by omega)]
  · rw [SetJump_bytes_outside (SetJump m F1 D1 backup1).mem F2 D2 backup2 a (by omega)]
    by_cases h1 : F1 ≤ a ∧ a < F1 + (SetJump m F1 D1 backup1).binary_backup.length
    · rw [SetJump_bytes_inside_indep (SetJump m F2 D2 backup2).mem m F1 D1 backup1 backup1 a h1.1
        (by omega)]
    · rw [SetJump_bytes_outside (SetJump m F2 D2 backup2).mem F1 D1 backup1 a (by omega),
        SetJump_bytes_outside m F1 D1 backup1 a (by omega),
        SetJump_bytes_outside m F2 D2 backup2 a (by omega)]

/-- Reverting two stacked installs, last one first, restores the contents. -/
theorem RevertPatch_unwind_bytes (m : Memory) (F1 D1 F2 D2 : Nat) (backup1 backup2 : List Byte) :
    (RevertPatch
        (RevertPatch (SetJump (SetJump m F1 D1 backup1).mem F2 D2 backup2).mem F2
          (SetJump (SetJump m F1 D1 backup1).mem F2 D2 backup2).binary_backup)
        F1 (SetJump m F1 D1 backup1).binary_backup).bytes
      = m.bytes := by
  have hrt := RevertPatch_SetJump_bytes (SetJump m F1 D1 backup1).mem F2 D2 backup2
  have hcongr := copy_bytes_congr (SetJump m F1 D1 backup1).binary_backup F1 _ _ hrt
  unfold RevertPatch at hcongr ⊢
  rw [hcongr]
  exact RevertPatch_SetJump_bytes m F1 D1 backup1

/-- C12 (independence of patches at different addresses).  Let the ranges
`[F1, F1 + len(b1))` and `[F2, F2 + len(b2))` written by `SetJump(F1, D1)` and
`SetJump(F2, D2)` be disjoint.  Then running the first and then the second
gives the same memory contents and the same two backups as running them in
the opposite order, and reverting the two patches, in either order, gives the
contents of `m`. -/
theorem SetJump_independent (m : Memory) (F1 D1 F2 D2 : Nat) (backup1 backup2 : List Byte)
    (hdisj : F1 + (SetJump m F1 D1 backup1).binary_backup.length ≤ F2
      ∨ F2 + (SetJump m F2 D2 backup2).binary_backup.length ≤ F1) :
    (SetJump (SetJump m F1 D1 backup1).mem F2 D2 backup2).mem.bytes
        = (SetJump (SetJump m F2 D2 backup2).mem F1 D1 backup1).mem.bytes
    ∧ (SetJump m F1 D1 backup1).binary_backup
        = (SetJump (SetJump m F2 D2 backup2).mem F1 D1 backup1).binary_backup
    ∧ (SetJump (SetJump m F1 D1 backup1).mem F2 D2 backup2).binary_backup
        = (SetJump m F2 D2 backup2).binary_backup
    ∧ (RevertPatch
          (RevertPatch (SetJump (SetJump m F1 D1 backup1).mem F2 D2 backup2).mem F2
            (SetJump (SetJump m F1 D1 backup1).mem F2 D2 backup2).binary_backup)
          F1 (SetJump m F1 D1 backup1).binary_backup).bytes
        = m.bytes
    ∧ (RevertPatch
          (RevertPatch (SetJump (SetJump m F1 D1 backup1).mem F2 D2 backup2).mem F1
            (SetJump m F1 D1 backup1).binary_backup)
          F2 (SetJump (SetJump m F1 D1 backup1).mem F2 D2 backup2).binary_backup).bytes
        = m.bytes := by
  have hb2 := SetJump_backup_disjoint m F1 D1 F2 D2 backup1 backup2 hdisj
  have hb1 := SetJump_backup_disjoint m F2 D2 F1 D1 backup2 backup1 hdisj.symm
  have hcomm := SetJump_comm_bytes m F1 D1 F2 D2 backup1 backup2 hdisj
  refine ⟨hcomm, hb1.symm, hb2, RevertPatch_unwind_bytes m F1 D1 F2 D2 backup1 backup2, ?_⟩
  have hun := RevertPatch_unwind_bytes m F2 D2 F1 D1 backup2 backup1
  rw [hb1] at hun
  rw [hb2]
  have hinner := copy_bytes_congr (SetJump m F1 D1 backup1).binary_backup F1 _ _ hcomm
  have houter := copy_bytes_congr (SetJump m F2 D2 backup2).binary_backup F2 _ _ hinner
  unfold RevertPatch at hun ⊢
  rw [houter]
  exact hun

/-- Witness for C12: a short patch at `0x1000` and a far patch right behind it,
at `0x1005`. -/
theorem SetJump_independent_witness :
    (4096 + (SetJump prologueMemory 4096 8192 []).binary_backup.length ≤ 4101
      ∨ 4101 + (SetJump prologueMemory 4101 0x123456789ABCDEF0 []).binary_backup.length ≤ 4096)
    ∧ (SetJump (SetJump prologueMemory 4096 8192 []).mem 4101 0x123456789ABCDEF0 []).mem.bytes
        = (SetJump (SetJump prologueMemory 4101 0x123456789ABCDEF0 []).mem 4096 8192 []).mem.bytes
    ∧ (RevertPatch
          (RevertPatch
            (SetJump (SetJump prologueMemory 4096 8192 []).mem 4101 0x123456789ABCDEF0 []).mem
            4096 (SetJump prologueMemory 4096 8192 []).binary_backup)
          4101
          (SetJump (SetJump prologueMemory 4096 8192 []).mem 4101 0x123456789ABCDEF0
            []).binary_backup).bytes
        = prologueMemory.bytes :=
  ⟨Or.inl (by decide),
   (SetJump_independent prologueMemory 4096 8192 4101 0x123456789ABCDEF0 [] []
      (Or.inl (by decide))).1,
   (SetJump_independent prologueMemory 4096 8192 4101 0x123456789ABCDEF0 [] []
      (Or.inl (by decide))).2.2.2.2⟩

/-! ## Distance arithmetic -/

/-- C13 (range predicate).  For every 64-bit value `d`, `IsDistanceOverflow d` is
true exactly when `d`, read as a two's-complement signed 64-bit integer, lies
outside `[-2^31, 2^31 - 1]`; in particular negative distances down to `-2^31`
are classified as representable. -/
theorem IsDistanceOverflow_range (d : Nat) (hd : d < 2 ^ 64) :
    (IsDistanceOverflow d = true ↔ ¬ (-2 ^ 31 ≤ asSigned64 d ∧ asSigned64 d ≤ 2 ^ 31 - 1))
    ∧ (-2 ^ 31 ≤ asSigned64 d → asSigned64 d < 0 → IsDistanceOverflow d = false) := by
  have hiff : IsDistanceOverflow d = true ↔
      ¬ (-2 ^ 31 ≤ asSigned64 d ∧ asSigned64 d ≤ 2 ^ 31 - 1) := by
    rw [IsDistanceOverflow_iff]
    unfold asSigned64
    split <;> omega
  refine ⟨hiff, fun hlo hneg => ?_⟩
  cases hc : IsDistanceOverflow d
  · rfl
  · exact absurd ⟨hlo, by omega⟩ (hiff.1 hc)

/-- Witness for C13: the bit patterns of `-2^31` and `-1` are representable,
those of `-2^31 - 1` and `2^31` are not, `2^31 - 1` is. -/
theorem IsDistanceOverflow_range_witness :
    IsDistanceOverflow (2 ^ 64 - 2 ^ 31) = false
    ∧ IsDistanceOverflow (2 ^ 64 - 1) = false
    ∧ (IsDistanceOverflow (2 ^ 64 - 2 ^ 31 - 1) = true ↔
        ¬ (-2 ^ 31 ≤ asSigned64 (2 ^ 64 - 2 ^ 31 - 1)
            ∧ asSigned64 (2 ^ 64 - 2 ^ 31 - 1) ≤ 2 ^ 31 - 1))
    ∧ IsDistanceOverflow (2 ^ 64 - 2 ^ 31 - 1) = true
    ∧ IsDistanceOverflow (2 ^ 31) = true
    ∧ IsDistanceOverflow (2 ^ 31 - 1) = false :=
  ⟨(IsDistanceOverflow_range (2 ^ 64 - 2 ^ 31) (by norm_num)).2 (by decide) (by decide),
   (IsDistanceOverflow_range (2 ^ 64 - 1) (by norm_num)).2 (by decide) (by decide),
   (IsDistanceOverflow_range (2 ^ 64 - 2 ^ 31 - 1) (by norm_num)).1,
   by decide, by decide, by decide⟩

/-- C14 (displacement arithmetic).  For every address `address` and every 64-bit
address `destination`, `CalculateDistance` is `destination - address - 5` modulo `2 ^ 64`,
so that `address + 5 + CalculateDistance address destination` is `destination`
modulo `2 ^ 64`; and whenever the integer `destination - address - 5` lies in
`[-2^63, 2^63 - 1]`, the result read as a signed 64-bit integer is that
integer. -/
theorem CalculateDistance_arith (address destination : Nat) (hd : destination < 2 ^ 64) :
    ((CalculateDistance address destination : Nat) : Int)
        = ((destination : Int) - (address : Int) - 5) % 2 ^ 64
    ∧ CalculateDistance address destination < 2 ^ 64
    ∧ (address + 5 + CalculateDistance address destination) % 2 ^ 64 = destination
    ∧ (-2 ^ 63 ≤ (destination : Int) - (address : Int) - 5 →
        (destination : Int) - (address : Int) - 5 ≤ 2 ^ 63 - 1 →
        asSigned64 (CalculateDistance address destination)
          = (destination : Int) - (address : Int) - 5) := by
  rw [CalculateDistance_eq]
  refine ⟨by omega, by omega, by omega, fun hlo hhi => ?_⟩
  unfold asSigned64
  split <;> omega

/-- Witness for C14: a forward and a backward displacement. -/
theorem CalculateDistance_arith_witness :
    CalculateDistance 4096 8192 = 4091
    ∧ (4096 + 5 + CalculateDistance 4096 8192) % 2 ^ 64 = 8192
    ∧ asSigned64 (CalculateDistance 8192 4096) = -4101
    ∧ (8192 + 5 + CalculateDistance 8192 4096) % 2 ^ 64 = 4096 :=
  ⟨by decide,
   (CalculateDistance_arith 4096 8192 (by norm_num)).2.2.1,
   ((CalculateDistance_arith 8192 4096 (by norm_num)).2.2.2 (by norm_num)
      (by norm_num)).trans (by norm_num),
   (CalculateDistance_arith 8192 4096 (by norm_num)).2.2.1⟩

/-! ## Installing twice at one target -/

/-- The first byte `SetJump` leaves at the target is the opcode of the encoding
chosen. -/
theorem SetJump_first_byte (m : Memory) (F D : Nat) (backup : List Byte) :
    ((SetJump m F D backup).binary_backup.length = 5 →
        (SetJump m F D backup).mem.bytes F = toChar 0xE9)
    ∧ ((SetJump m F D backup).binary_backup.length = 14 →
        (SetJump m F D backup).mem.bytes F = toChar 0x68) := by
  rcases SetJump_cases m F D backup with ⟨_, hm, hb⟩ | ⟨_, hm, hb⟩
  · rw [hm, hb, readRange_length]
    exact ⟨fun _ => by simp [PatchFunction_bytes], fun h => absurd h (by decide)⟩
  · rw [hm, hb, readRange_length]
    exact ⟨fun h => absurd h (by decide), fun _ => by simp [PatchFunction64bitAddress_bytes]⟩

theorem SetJump_backup_head (m : Memory) (F D : Nat) (backup : List Byte) :
    (SetJump m F D backup).binary_backup.head? = some (m.bytes F) := by
  rcases SetJump_cases m F D backup with ⟨_, _, hb⟩ | ⟨_, _, hb⟩ <;>
    rw [hb] <;> simp [readRange, List.range_succ_eq_map]

/-- C15 (install over an already patched target), as amended.  Let `SetJump(F, D1)`
on `m` give memory `m1` and backup `b1`, and `SetJump(F, D2)` on `m1` give memory
`m2` and backup `b2`.  Then `b2` holds the bytes of `m1` at `[F, F + len(b2))`; its
first byte is the opcode of the first patch, `0xE9` when `b1` has length 5 and
`0x68` when it has length 14; and `RevertPatch(F, b2)` on `m2` gives the contents
of `m1`, the state patched towards `D1`.  Whenever the original first byte
`m(F)` is not that opcode, the first byte of `b2` is not the original first
byte and the reverted contents are not those of `m`; in general the reverted
contents are those of `m` exactly when the first install left the contents of
`m` unchanged. -/
theorem SetJump_over_patched (m : Memory) (F D1 D2 : Nat) (backup1 backup2 : List Byte) :
    (∀ i (h : i < (SetJump (SetJump m F D1 backup1).mem F D2 backup2).binary_backup.length),
        (SetJump (SetJump m F D1 backup1).mem F D2 backup2).binary_backup.get ⟨i, h⟩
          = (SetJump m F D1 backup1).mem.bytes (F + i))
    ∧ ((SetJump m F D1 backup1).binary_backup.length = 5 →
        (SetJump (SetJump m F D1 backup1).mem F D2 backup2).binary_backup.head?
          = some (toChar 0xE9))
    ∧ ((SetJump m F D1 backup1).binary_backup.length = 14 →
        (SetJump (SetJump m F D1 backup1).mem F D2 backup2).binary_backup.head?
          = some (toChar 0x68))
    ∧ ((SetJump m F D1 backup1).binary_backup.length = 5
        ∨ (SetJump m F D1 backup1).binary_backup.length = 14)
    ∧ (RevertPatch (SetJump (SetJump m F D1 backup1).mem F D2 backup2).mem F
          (SetJump (SetJump m F D1 backup1).mem F D2 backup2).binary_backup).bytes
        = (SetJump m F D1 backup1).mem.bytes
    ∧ ((SetJump m F D1 backup1).binary_backup.length = 5 → m.bytes F ≠ toChar 0xE9 →
        (SetJump (SetJump m F D1 backup1).mem F D2 backup2).binary_backup.head?
            ≠ some (m.bytes F)
        ∧ (RevertPatch (SetJump (SetJump m F D1 backup1).mem F D2 backup2).mem F
            (SetJump (SetJump m F D1 backup1).mem F D2 backup2).binary_backup).bytes
          ≠ m.bytes)
    ∧ ((SetJump m F D1 backup1).binary_backup.length = 14 → m.bytes F ≠ toChar 0x68 →
        (SetJump (SetJump m F D1 backup1).mem F D2 backup2).binary_backup.head?
            ≠ some (m.bytes F)
        ∧ (RevertPatch (SetJump (SetJump m F D1 backup1).mem F D2 backup2).mem F
            (SetJump (SetJump m F D1 backup1).mem F D2 backup2).binary_backup).bytes
          ≠ m.bytes)
    ∧ ((RevertPatch (SetJump (SetJump m F D1 backup1).mem F D2 backup2).mem F
          (SetJump (SetJump m F D1 backup1).mem F D2 backup2).binary_backup).bytes
          = m.bytes
        ↔ (SetJump m F D1 backup1).mem.bytes = m.bytes) := by
  have hhead := SetJump_backup_head (SetJump m F D1 backup1).mem F D2 backup2
  have hrt := RevertPatch_SetJump_bytes (SetJump m F D1 backup1).mem F D2 backup2
  have hop := SetJump_first_byte m F D1 backup1
  have hdiff : ∀ (op : Byte), (SetJump m F D1 backup1).mem.bytes F = op → m.bytes F ≠ op →
      (SetJump (SetJump m F D1 backup1).mem F D2 backup2).binary_backup.head?
          ≠ some (m.bytes F)
      ∧ (RevertPatch (SetJump (SetJump m F D1 backup1).mem F D2 backup2).mem F
          (SetJump (SetJump m F D1 backup1).mem F D2 backup2).binary_backup).bytes
        ≠ m.bytes := by
    intro op hopc hne
    constructor
    · rw [hhead, hopc]
      intro heq
      exact hne (Option.some.inj heq).symm
    · rw [hrt]
      intro heq
      exact hne ((congrFun heq F).symm.trans hopc)
  refine ⟨?_, ?_, ?_, ?_, hrt, fun h5 hne => hdiff _ (hop.1 h5) hne,
    fun h14 hne => hdiff _ (hop.2 h14) hne, by rw [hrt]⟩
  · intro i h
    have hb := SetJump_backup_eq (SetJump m F D1 backup1).mem F D2 backup2
    have hget : ∀ (bs : List Byte) (n : Nat), bs = readRange (SetJump m F D1 backup1).mem F n →
        ∀ j (hj : j < bs.length), bs.get ⟨j, hj⟩ = (SetJump m F D1 backup1).mem.bytes (F + j) := by
      intro bs n hbs j hj
      subst hbs
      exact readRange_get _ F n j hj
    exact hget _ _ hb i h
  · intro h5; rw [hhead, hop.1 h5]
  · intro h14; rw [hhead, hop.2 h14]
  · rw [SetJump_backup_length]; split
    · exact Or.inr rfl
    · exact Or.inl rfl

/-- Instance of C15: a short patch towards `0x2000` and then a far one over it.
The second backup starts with `0xE9`, not with the prologue's `0x55`, and
reverting with it brings the short patch back, not the prologue. -/
theorem SetJump_over_patched_witness :
    (SetJump (SetJump prologueMemory 4096 8192 []).mem 4096 0x123456789ABCDEF0
        []).binary_backup.map Fin.val
      = [0xE9, 0xFB, 0x0F, 0x00, 0x00, 0, 0, 0, 0, 0, 0, 0, 0, 0]
    ∧ readRange
        (RevertPatch
          (SetJump (SetJump prologueMemory 4096 8192 []).mem 4096 0x123456789ABCDEF0 []).mem
          4096
          (SetJump (SetJump prologueMemory 4096 8192 []).mem 4096 0x123456789ABCDEF0
            []).binary_backup) 4096 5
      = readRange (SetJump prologueMemory 4096 8192 []).mem 4096 5
    ∧ (SetJump (SetJump prologueMemory 4096 8192 []).mem 4096 0x123456789ABCDEF0
        []).binary_backup.head? ≠ some (prologueMemory.bytes 4096)
    ∧ (RevertPatch
          (SetJump (SetJump prologueMemory 4096 8192 []).mem 4096 0x123456789ABCDEF0 []).mem
          4096
          (SetJump (SetJump prologueMemory 4096 8192 []).mem 4096 0x123456789ABCDEF0
            []).binary_backup).bytes
        ≠ prologueMemory.bytes := by
  have h := (SetJump_over_patched prologueMemory 4096 8192 0x123456789ABCDEF0 [] []).2.2.2.2.1
  have hn := (SetJump_over_patched prologueMemory 4096 8192 0x123456789ABCDEF0 [] []).2.2.2.2.2.1
    (by decide) (by decide)
  refine ⟨by decide, ?_, hn.1, hn.2⟩
  simp only [readRange, h]

/-- Counterexample to C15 as first worded, for every memory: on a memory that
already holds `E9 FB 0F 00 00` at `0x1000`, the install towards `0x2000` stores
the bytes that are there, so after a second install the first byte of `b2` is
the original first byte and `RevertPatch(F, b2)` gives the contents of the
original memory. -/
theorem SetJump_over_patched_counterexample :
    (SetJump (SetJump patchedMemory 4096 8192 []).mem 4096 0x123456789ABCDEF0
        []).binary_backup.head? = some (patchedMemory.bytes 4096)
    ∧ (RevertPatch
          (SetJump (SetJump patchedMemory 4096 8192 []).mem 4096 0x123456789ABCDEF0 []).mem
          4096
          (SetJump (SetJump patchedMemory 4096 8192 []).mem 4096 0x123456789ABCDEF0
            []).binary_backup).bytes
        = patchedMemory.bytes := by
  have hm1 : (SetJump patchedMemory 4096 8192 []).mem.bytes = patchedMemory.bytes := by
    funext a
    rw [SetJump_short patchedMemory 4096 8192 [] (by decide)]
    have hd : CalculateDistance 4096 8192 = 4091 := by decide
    simp only [hd, PatchFunction_bytes, patchedMemory]
    split_ifs <;> first | rfl | omega
  refine ⟨by decide, ?_⟩
  rw [RevertPatch_SetJump_bytes (SetJump patchedMemory 4096 8192 []).mem 4096
    0x123456789ABCDEF0 [], hm1]

/-! ## Writes and the unprotected page -/

/-- The stores of `SetJump` are the addresses `F, ..., F + len - 1`, appended to
the log. -/
theorem SetJump_written (m : Memory) (F D : Nat) (backup : List Byte) :
    (SetJump m F D backup).mem.written
      = m.written ++ addressRange F (SetJump m F D backup).binary_backup.length := by
  rcases SetJump_cases m F D backup with ⟨_, hm, hb⟩ | ⟨_, hm, hb⟩
  · rw [hm, hb, readRange_length, PatchFunction_written]; rfl
  · rw [hm, hb, readRange_length, PatchFunction64bitAddress_written]; rfl

/-- When the patch does not run past the end of the page its first byte is on,
every store of `SetJump` is inside that page: the one page
`UnprotectMemoryForOnePage` asks `mprotect` for. -/
theorem SetJump_written_in_page (m : Memory) (k F D : Nat) (backup : List Byte) (hk : k < 64)
    (hF : F < 2 ^ 64)
    (hfit : F % 2 ^ k + (SetJump m F D backup).binary_backup.length ≤ 2 ^ k) :
    ∀ a, a ∈ addressRange F (SetJump m F D backup).binary_backup.length →
      AlignAddress F (2 ^ k) ≤ a ∧ a < AlignAddress F (2 ^ k) + 2 ^ k := by
  intro a ha
  rw [AlignAddress_eq F k hk hF]
  simp only [addressRange, List.mem_map, List.mem_range] at ha
  obtain ⟨i, hi, rfl⟩ := ha
  have hdm := Nat.div_add_mod F (2 ^ k)
  constructor <;> omega

/-- A granted request for a patch that does not run past the end of its page:
every address of the patch is writable afterwards, so `SetFunctionJump`
returns what `SetJump` returns. -/
theorem SetFunctionJump_granted_in_page (h : Host) (m : Memory) (k F D : Nat)
    (backup : List Byte) (hS : h.PageSize = 2 ^ k) (hk : k < 64) (hF : F < 2 ^ 64)
    (hz : UnprotectMemoryForOnePage h F = 0)
    (hfit : F % 2 ^ k + (SetJump m F D backup).binary_backup.length ≤ 2 ^ k) :
    SetFunctionJump h m F D backup = Outcome.returned (SetJump m F D backup) := by
  apply SetFunctionJump_granted h m F D backup hz
  intro i hi
  have hpos : 0 < 2 ^ k := Nat.two_pow_pos k
  have hone : (2 ^ k + 2 ^ k - 1) / 2 ^ k = 1 := by
    apply Nat.div_eq_of_lt_le <;> omega
  have hdm := Nat.div_add_mod F (2 ^ k)
  simp only [afterMprotect, hS, AlignAddress_eq F k hk hF, hone, Nat.one_mul, Bool.or_eq_true,
    Bool.and_eq_true, decide_eq_true_eq]
  left
  constructor <;> omega

/-- C16 (writes and the unprotected region), evaluated where it fails.  On a host
with 4 KiB pages that grants `mprotect` for the single page `[0x1000, 0x2000)`
and for nothing else, the page after it being writable already,
`SetFunctionJump` at target `0x1FFE` is granted its request, so the region it
asked for is that page, and returns having stored to `0x1FFE .. 0x2002`: the
stores to `0x2000`, `0x2001` and `0x2002` are outside
`[AlignAddress(F, S), AlignAddress(F, S) + S)`. -/
theorem SetFunctionJump_writes_past_page :
    AlignAddress 8190 onePageHost.PageSize = 4096
    ∧ UnprotectMemoryForOnePage onePageHost 8190
        = onePageHost.mprotect 4096 4096 (PROT_READ ||| PROT_WRITE ||| PROT_EXEC)
    ∧ SetFunctionJump onePageHost prologueMemory 8190 12288 []
        = Outcome.returned (SetJump prologueMemory 8190 12288 [])
    ∧ (SetJump prologueMemory 8190 12288 []).mem.written = [8190, 8191, 8192, 8193, 8194]
    ∧ (∃ a, a ∈ (SetJump prologueMemory 8190 12288 []).mem.written
        ∧ ¬ (AlignAddress 8190 onePageHost.PageSize ≤ a
              ∧ a < AlignAddress 8190 onePageHost.PageSize + onePageHost.PageSize)) :=
  ⟨by decide, by decide,
   SetFunctionJump_granted onePageHost prologueMemory 8190 12288 [] (by decide) (by decide),
   by decide, ⟨8192, by decide, by decide⟩⟩

/-! ## Unwinding nested patches -/

/-- C17 (nested patches unwind in reverse order).  Let `SetJump(F, D1)` on `m` give
backup `b1` and a following `SetJump(F, D2)` give backup `b2`, whichever
encodings the two installs choose.  Then `RevertPatch(F, b2)` followed by
`RevertPatch(F, b1)` gives the contents of `m` at every address. -/
theorem RevertPatch_nested (m : Memory) (F D1 D2 : Nat) (backup1 backup2 : List Byte) :
    (RevertPatch
        (RevertPatch (SetJump (SetJump m F D1 backup1).mem F D2 backup2).mem F
          (SetJump (SetJump m F D1 backup1).mem F D2 backup2).binary_backup)
        F (SetJump m F D1 backup1).binary_backup).bytes
      = m.bytes :=
  RevertPatch_unwind_bytes m F D1 F D2 backup1 backup2

/-- Instance of C17: short then long, and long then short, at the prologue. -/
theorem RevertPatch_nested_witness :
    (SetJump prologueMemory 4096 8192 []).binary_backup.length = 5
    ∧ (SetJump (SetJump prologueMemory 4096 8192 []).mem 4096 0x123456789ABCDEF0
        []).binary_backup.length = 14
    ∧ (RevertPatch
        (RevertPatch
          (SetJump (SetJump prologueMemory 4096 8192 []).mem 4096 0x123456789ABCDEF0 []).mem
          4096
          (SetJump (SetJump prologueMemory 4096 8192 []).mem 4096 0x123456789ABCDEF0
            []).binary_backup)
        4096 (SetJump prologueMemory 4096 8192 []).binary_backup).bytes
      = prologueMemory.bytes
    ∧ (RevertPatch
        (RevertPatch
          (SetJump (SetJump prologueMemory 4096 0x123456789ABCDEF0 []).mem 4096 8192 []).mem
          4096
          (SetJump (SetJump prologueMemory 4096 0x123456789ABCDEF0 []).mem 4096 8192
            []).binary_backup)
        4096 (SetJump prologueMemory 4096 0x123456789ABCDEF0 []).binary_backup).bytes
      = prologueMemory.bytes :=
  ⟨by decide, by decide,
   RevertPatch_nested prologueMemory 4096 8192 0x123456789ABCDEF0 [] [],
   RevertPatch_nested prologueMemory 4096 0x123456789ABCDEF0 8192 [] []⟩

end RuntimePatcher

end CppFreeMock
